import Mathlib

/-!
Verification development for the Auto Attendance System repository.

The definitions below are shallow embeddings of the Python source:
- `matchFace` embeds the per-face matching logic of
  `FaceRecognitionThread.run` (face1.py, lines 72-88);
- `splitU`, `joinU`, `parseLabel` embed the filename-to-label parsing of
  `LoadStudentsThread.run` (face1.py, lines 131-135);
- `vecAdd`, `vecSum`, `vecMean`, `collectFor` embed the per-label encoding
  averaging of `LoadStudentsThread.run` (face1.py, lines 149-164,
  `np.mean(encodings, axis=0)`);
- `update_attendance_record` embeds `AttendanceSystem.update_attendance_record`
  (face1.py, lines 1532-1554);
- `save_attendance` embeds `AttendanceManager.save_attendance`
  (attendance_manager.py, lines 18-34);
- `FsOp`/`runOps`/`saveFileOps` embed the file-writing behaviour of
  `AttendanceSystem.save_encoding_set` (face1.py, lines 1326-1346) and of
  `AttendanceManager.save_attendance` (attendance_manager.py, lines 33-34).

Machine reals (numpy float64 / Python float) are modelled as rationals `ℚ`,
timestamps as integers counting seconds (`Int`), and Python strings as Lean
`String` (or `List Char` where the code manipulates them character-wise).
-/

namespace AutoAttendance

/-! ## Definitions -/

/-! ### Matcher (face1.py, `FaceRecognitionThread.run`, lines 72-88)

The Python code, per detected face encoding:
```
name = "Unknown"
if len(self.known_face_encodings) > 0:
    face_distances = face_recognition.face_distance(self.known_face_encodings, face_encoding)
    best_match_index = np.argmin(face_distances)
    if face_distances[best_match_index] < self.threshold:
        name = self.known_face_names[best_match_index]
```
`face_recognition.face_distance` is an external library call
(`np.linalg.norm(encodings - query, axis=1)`); the repository only consumes
the list of distances it returns, so we parameterise the matcher over an
arbitrary distance function `d`.  `np.argmin` returns the FIRST index
attaining the minimum, which `argminIdx` reproduces. -/

/-- A feature vector: a list of rationals (modelling a numpy float array). -/
abbrev Vec := List ℚ

/-- Minimum of a nonempty list of rationals (0 on the empty list, which the
code never queries: the gallery-nonempty guard runs first). -/
def listMin : List ℚ → ℚ
  | [] => 0
  | [x] => x
  | x :: y :: xs => min x (listMin (y :: xs))

/-- `np.argmin`: the first (least) index attaining the minimum. -/
def argminIdx : List ℚ → ℕ
  | [] => 0
  | [_] => 0
  | x :: y :: xs => if x ≤ listMin (y :: xs) then 0 else argminIdx (y :: xs) + 1

/-- The per-face matching logic of `FaceRecognitionThread.run`, parameterised
by the distance function `d` (the external `face_recognition.face_distance`). -/
def matchFace (d : Vec → Vec → ℚ) (encodings : List Vec) (names : List String)
    (query : Vec) (threshold : ℚ) : String :=
  if 0 < encodings.length then
    let ds := encodings.map fun e => d e query
    if ds.getD (argminIdx ds) 0 < threshold then
      names.getD (argminIdx ds) "Unknown"
    else "Unknown"
  else "Unknown"

/-- Concrete distance instance used for witnesses/counterexamples: the L1
distance, which on 1-dimensional vectors coincides with the Euclidean norm
`np.linalg.norm` computes. -/
def absDist (v w : Vec) : ℚ := (List.zipWith (fun a b => |a - b|) v w).sum

/-! ### Filename-to-label parsing (face1.py, `LoadStudentsThread.run`, lines 131-135)

The Python code:
```
for filename in os.listdir(self.directory):
    if filename.endswith(".jpg") or filename.endswith(".png"):
        name = "_".join(filename.split("_")[:-1])
```
`splitU` embeds Python's `str.split("_")` (which always returns a nonempty
list; `"".split("_") == [""]`), `joinU` embeds `"_".join`, and the `[:-1]`
slice is `List.dropLast`. -/

/-- Python `filename.split("_")`, character-wise. -/
def splitU : List Char → List (List Char)
  | [] => [[]]
  | c :: cs =>
    match splitU cs with
    | [] => [[]]
    | h :: t => if c = '_' then [] :: h :: t else (c :: h) :: t

/-- Python `"_".join(pieces)`. -/
def joinU : List (List Char) → List Char
  | [] => []
  | [x] => x
  | x :: y :: ys => x ++ '_' :: joinU (y :: ys)

/-- `name = "_".join(filename.split("_")[:-1])` from `LoadStudentsThread.run`. -/
def parseLabel (filename : List Char) : List Char :=
  joinU (splitU filename).dropLast

/-- The dataset build's filename filter:
`filename.endswith(".jpg") or filename.endswith(".png")`. -/
def isAccepted (filename : List Char) : Bool :=
  List.isSuffixOf ".jpg".toList filename || List.isSuffixOf ".png".toList filename

/-! ### Per-label encoding averaging (face1.py, `LoadStudentsThread.run`, lines 149-164)

The Python code collects, per label, every encoding of that label's images in
file-enumeration order (`students_encodings[name].append(encodings[0])`) and
then combines them with `np.mean(encodings, axis=0)`: the element-wise sum of
the vectors divided by their count. -/

/-- Element-wise addition of two feature vectors (numpy array addition). -/
def vecAdd (v w : Vec) : Vec := List.zipWith (· + ·) v w

/-- Element-wise sum of a list of feature vectors. -/
def vecSum : List Vec → Vec
  | [] => []
  | v :: vs => vs.foldl vecAdd v

/-- `np.mean(encodings, axis=0)`: element-wise sum divided by the count. -/
def vecMean (vs : List Vec) : Vec :=
  (vecSum vs).map fun q => q / (vs.length : ℚ)

/-- The per-label collection step of the dataset build: the encodings whose
filename parsed to `label`, in file-enumeration order. -/
def collectFor (label : String) (files : List (String × Vec)) : List Vec :=
  (files.filter fun f => decide (f.1 = label)).map Prod.snd

/-! ### Attendance ledger (face1.py, `AttendanceSystem.update_attendance_record`, lines 1532-1554)

The Python code:
```
def update_attendance_record(self, name, timestamp):
    if not self.duplicate_prevention.isChecked() or \
       name not in self.present_students or \
       (datetime.now() - datetime.strptime(self.present_students[name], "%Y-%m-%d %H:%M:%S")).seconds > 30:
        self.present_students[name] = timestamp
        self.refresh_attendance_table()
        self.attendance_manager.save_attendance(...)
        ...
```
`self.present_students` is a Python dict label → timestamp string, modelled
as an insertion-ordered association list with integer timestamps (seconds).
`timedelta.seconds` is the sub-day seconds component of the elapsed time,
i.e. the total elapsed seconds modulo 86400 (Python's floor mod, matching
`Int.emod`).  `saveCount` counts the `save_attendance` persistence writes. -/

/-- The in-memory ledger state: the `present_students` dict (insertion-ordered
label → last-seen timestamp) and the number of persistence writes issued. -/
structure AttState where
  present : List (String × Int)
  saveCount : ℕ
deriving DecidableEq, Repr

/-- State at application start: empty dict, no writes yet. -/
def initialState : AttState := ⟨[], 0⟩

/-- Python dict assignment `d[k] = v`: update in place if the key exists,
otherwise append at the end (dicts preserve insertion order). -/
def setKey (l : List (String × Int)) (k : String) (v : Int) : List (String × Int) :=
  if l.any fun p => p.1 = k then
    l.map fun p => if p.1 = k then (k, v) else p
  else l ++ [(k, v)]

/-- `(now - last).seconds`: the sub-day component of the elapsed time, in
seconds — Python `timedelta.seconds`, i.e. floor-mod by 86400. -/
def elapsedSeconds (now last : Int) : Int := (now - last) % 86400

/-- The guard of `update_attendance_record`: record unless duplicate
prevention is on, the name is already present, and the sub-day elapsed
seconds are at most 30. -/
def shouldRecord (dupPrev : Bool) (st : AttState) (name : String) (now : Int) : Bool :=
  !dupPrev ||
    match List.lookup name st.present with
    | none => true
    | some last => decide (30 < elapsedSeconds now last)

/-- `AttendanceSystem.update_attendance_record`: when the guard passes, store
the sighting timestamp under the name and persist; otherwise do nothing. -/
def update_attendance_record (dupPrev : Bool) (st : AttState) (name : String)
    (now : Int) : AttState :=
  if shouldRecord dupPrev st name now then
    { present := setKey st.present name now, saveCount := st.saveCount + 1 }
  else st

/-- Process a day's identity events (name, timestamp) in emission order,
starting from the empty state. -/
def runEvents (dupPrev : Bool) (events : List (String × Int)) : AttState :=
  events.foldl (fun st e => update_attendance_record dupPrev st e.1 e.2) initialState

/-! ### Daily record persistence (attendance_manager.py, `AttendanceManager.save_attendance`, lines 18-34)

The Python code:
```
attendance_data = {
    'date': date_str,
    'present_students': list(present_students),
    'all_students': list(all_students),
    'absent_students': list(set(all_students) - set(present_students)),
    'total_students': len(all_students),
    'present_count': len(present_students),
    'attendance_percentage': (len(present_students) / len(all_students) * 100) if all_students else 0
}
```
Python's `set` iteration order is unspecified; we model `set(xs)` as the
first-occurrence deduplication of `xs` and the set difference as a filter
(only membership facts are claimed about it).  A Python `ZeroDivisionError`
is modelled by `pyDiv` returning `none`, so `save_attendance` returns an
`Option`: `none` would mean the save raised. -/

/-- A persisted daily attendance record (`attendance_YYYY-MM-DD.json`). -/
structure AttendanceRecord where
  date : String
  present_students : List String
  all_students : List String
  absent_students : List String
  total_students : ℕ
  present_count : ℕ
  attendance_percentage : ℚ
deriving DecidableEq, Repr

/-- `set(xs)` modelled as first-occurrence deduplication. -/
def pyDedup : List String → List String
  | [] => []
  | x :: xs => x :: (pyDedup xs).filter fun y => decide (y ≠ x)

/-- `list(set(all) - set(present))`: the deduplicated members of `all` that
are not members of `present`. -/
def pySetDiff (all present : List String) : List String :=
  (pyDedup all).filter fun s => decide (s ∉ present)

/-- Python division, `none` on a `ZeroDivisionError`. -/
def pyDiv (x y : ℚ) : Option ℚ := if y = 0 then none else some (x / y)

/-- `AttendanceManager.save_attendance`: the record written for `date`;
`none` if the computation would raise. -/
def save_attendance (date : String) (present_students all_students : List String) :
    Option AttendanceRecord :=
  match (if all_students.isEmpty then some 0
         else (pyDiv (present_students.length : ℚ) (all_students.length : ℚ)).map
           fun q => q * 100) with
  | none => none
  | some perc => some
    { date := date
      present_students := present_students
      all_students := all_students
      absent_students := pySetDiff all_students present_students
      total_students := all_students.length
      present_count := present_students.length
      attendance_percentage := perc }

/-! ### File-write traces (face1.py, `AttendanceSystem.save_encoding_set`, lines 1326-1346; attendance_manager.py, lines 33-34)

Both save paths write the destination file in place:
```
with open(encoding_file, 'wb') as f:
    pickle.dump({'encodings': encodings, 'names': names}, f)
```
and
```
with open(attendance_file, 'w') as f:
    json.dump(attendance_data, f, indent=4)
```
`open(path, 'w'/'wb')` truncates the destination file immediately; the dump
then appends the serialized bytes.  There is no temporary file and no rename.
We model the destination file's content as a list of bytes and a save as the
trace of primitive file operations it performs; every prefix of the trace is
a state observable by a concurrent or post-crash `load`. -/

/-- A primitive file operation on the destination file. -/
inductive FsOp where
  | truncate : FsOp
  | write : List ℕ → FsOp
deriving DecidableEq, Repr

/-- Effect of one operation on the destination file's content. -/
def applyOp (content : List ℕ) : FsOp → List ℕ
  | .truncate => []
  | .write chunk => content ++ chunk

/-- Run a trace of operations from an initial content. -/
def runOps (content : List ℕ) (ops : List FsOp) : List ℕ :=
  ops.foldl applyOp content

/-- The trace `open(path, 'w'/'wb')` + `dump`: truncate in place, then write
the serialized bytes.  This is the trace of both `save_encoding_set` and
`save_attendance`. -/
def saveFileOps (bytes : List ℕ) : List FsOp :=
  [FsOp.truncate, FsOp.write bytes]

/-- The contents observable at each point of a save (after each prefix of its
trace), starting from the old content. -/
def observableStates (old : List ℕ) (ops : List FsOp) : List (List ℕ) :=
  (List.range (ops.length + 1)).map fun k => runOps old (ops.take k)

/-- A save trace is atomic for `old` when every observable intermediate
content is either the old content or the final content — what a
write-then-rename save guarantees. -/
def atomicSave (old : List ℕ) (ops : List FsOp) : Prop :=
  ∀ s ∈ observableStates old ops, s = old ∨ s = runOps old ops

instance (old : List ℕ) (ops : List FsOp) : Decidable (atomicSave old ops) := by
  unfold atomicSave
  infer_instance

/-! ## Theorems -/

/-! ### Matcher lemmas -/

lemma listMin_le {ds : List ℚ} {x : ℚ} (hx : x ∈ ds) : listMin ds ≤ x := by
  induction ds with
  | nil => cases hx
  | cons a tl ih =>
    cases tl with
    | nil =>
      simp at hx
      simp [listMin, hx]
    | cons b tl' =>
      rcases List.mem_cons.mp hx with h | h
      · simp [listMin, h]
      · simp only [listMin]
        exact le_trans (min_le_right _ _) (ih h)

lemma argminIdx_lt {ds : List ℚ} (h : ds ≠ []) : argminIdx ds < ds.length := by
  induction ds with
  | nil => exact absurd rfl h
  | cons a tl ih =>
    cases tl with
    | nil => simp [argminIdx]
    | cons b tl' =>
      simp only [argminIdx]
      split
      · simp
      · have := ih (by simp)
        simpa [Nat.succ_lt_succ_iff] using this

lemma getD_argminIdx {ds : List ℚ} (h : ds ≠ []) :
    ds.getD (argminIdx ds) 0 = listMin ds := by
  induction ds with
  | nil => exact absurd rfl h
  | cons a tl ih =>
    cases tl with
    | nil => simp [argminIdx, listMin]
    | cons b tl' =>
      simp only [argminIdx, listMin]
      split
      · next hle => simp [min_eq_left hle]
      · next hlt =>
        have hne : (b :: tl') ≠ [] := by simp
        have hmin : min a (listMin (b :: tl')) = listMin (b :: tl') :=
          min_eq_right (le_of_lt (lt_of_not_le hlt))
        rw [List.getD_cons_succ, hmin]
        exact ih hne

lemma argminIdx_first {ds : List ℚ} :
    ∀ j < argminIdx ds, listMin ds < ds.getD j 0 := by
  induction ds with
  | nil => intro j hj; simp [argminIdx] at hj
  | cons a tl ih =>
    cases tl with
    | nil => intro j hj; simp [argminIdx] at hj
    | cons b tl' =>
      intro j hj
      simp only [argminIdx] at hj
      split at hj
      · omega
      · next hlt =>
        have ha : listMin (b :: tl') < a := lt_of_not_le hlt
        have hmin : listMin (a :: b :: tl') = listMin (b :: tl') := by
          simp only [listMin]; exact min_eq_right (le_of_lt ha)
        cases j with
        | zero => simpa [hmin] using ha
        | succ j' =>
          have hj' : j' < argminIdx (b :: tl') := by omega
          simpa [hmin] using ih j' hj'

lemma map_dist_ne_nil {d : Vec → Vec → ℚ} {encodings : List Vec} {query : Vec}
    (h : encodings ≠ []) : encodings.map (fun e => d e query) ≠ [] := by
  simpa using h

/-! ### C1 and C7: matching against the threshold, tie-breaking -/

/-- C1 (counterexample to the claim as stated): a single gallery entry at
distance exactly equal to the threshold (distance 1/2, threshold 1/2) is
rejected as "Unknown" by the code, whereas the claim says an entry at distance
exactly `t` is accepted as a match with its label "A". -/
theorem matchFace_threshold_boundary_cex :
    absDist [(1:ℚ)/2] [0] = 1/2 ∧
    matchFace absDist [[(1:ℚ)/2]] ["A"] [0] (1/2) = "Unknown" ∧
    "Unknown" ≠ "A" := by
  refine ⟨?_, ?_, by decide⟩
  · norm_num [absDist, abs_of_nonneg]
  · norm_num [matchFace, absDist, argminIdx, listMin, abs_of_nonneg]

/-- C1 (amended): `matchFace` returns "Unknown" when the gallery is empty or
when the minimum distance from the query to the gallery entries is greater
than or equal to the threshold (the boundary is exclusive: an entry at
distance exactly `t` is rejected); when the minimum distance is strictly below
the threshold it returns the label at the first minimum-distance index, whose
distance equals the minimum. -/
theorem matchFace_min_distance_spec (d : Vec → Vec → ℚ) (encodings : List Vec)
    (names : List String) (query : Vec) (threshold : ℚ) :
    (encodings = [] → matchFace d encodings names query threshold = "Unknown") ∧
    (encodings ≠ [] →
      (threshold ≤ listMin (encodings.map fun e => d e query) →
        matchFace d encodings names query threshold = "Unknown") ∧
      (listMin (encodings.map fun e => d e query) < threshold →
        matchFace d encodings names query threshold
          = names.getD (argminIdx (encodings.map fun e => d e query)) "Unknown" ∧
        (encodings.map fun e => d e query).getD
            (argminIdx (encodings.map fun e => d e query)) 0
          = listMin (encodings.map fun e => d e query))) := by
  constructor
  · intro h
    simp [matchFace, h]
  · intro h
    have hds : encodings.map (fun e => d e query) ≠ [] := map_dist_ne_nil h
    have hlen : 0 < encodings.length := List.length_pos.mpr h
    have hget := getD_argminIdx hds
    constructor
    · intro hth
      simp only [matchFace, if_pos hlen]
      rw [if_neg]
      rw [hget]
      exact not_lt.mpr hth
    · intro hth
      refine ⟨?_, hget⟩
      simp only [matchFace, if_pos hlen]
      rw [if_pos]
      rw [hget]
      exact hth

/-- C1 witness: concrete instances of `matchFace_min_distance_spec` — empty
gallery gives "Unknown", minimum distance 3 above threshold 5/2 gives
"Unknown", minimum distance 3 below threshold 4 gives the nearest label. -/
theorem matchFace_min_distance_spec_witness :
    matchFace absDist [] ["A"] [0] 1 = "Unknown" ∧
    matchFace absDist [[(3:ℚ)], [(5:ℚ)]] ["A", "B"] [0] (5/2) = "Unknown" ∧
    matchFace absDist [[(3:ℚ)], [(5:ℚ)]] ["A", "B"] [0] 4 = "A" := by
  have hmap : [[(3:ℚ)], [(5:ℚ)]].map (fun e => absDist e [0]) = [3, 5] := by
    norm_num [absDist, abs_of_nonneg]
  refine ⟨(matchFace_min_distance_spec absDist [] ["A"] [0] 1).1 rfl, ?_, ?_⟩
  · have h := ((matchFace_min_distance_spec absDist [[(3:ℚ)], [(5:ℚ)]]
      ["A", "B"] [0] (5/2)).2 (by simp)).1
    rw [hmap] at h
    exact h (by norm_num [listMin])
  · have h := ((matchFace_min_distance_spec absDist [[(3:ℚ)], [(5:ℚ)]]
      ["A", "B"] [0] 4).2 (by simp)).2
    rw [hmap] at h
    have h' := (h (by norm_num [listMin])).1
    simpa [argminIdx, listMin] using h'

/-- C7 (counterexample to the claim as stated): two gallery entries at equal
minimal distance 0 from the query, listed as ["B", "A"]; the code selects "B"
(the first-listed entry, via `np.argmin`), not the lexicographically smallest
label "A" the claim requires. -/
theorem matchFace_tie_break_lex_cex :
    absDist [(0:ℚ)] [0] = 0 ∧
    matchFace absDist [[(0:ℚ)], [(0:ℚ)]] ["B", "A"] [0] 1 = "B" ∧
    "B" ≠ "A" := by
  refine ⟨?_, ?_, by decide⟩
  · norm_num [absDist]
  · norm_num [matchFace, absDist, argminIdx, listMin]

/-- C7 (amended): when the minimum distance is below the threshold, the match
deterministically selects the entry at the FIRST index attaining the minimum
distance (the `np.argmin` tie-break, which is by gallery position, not by
lexicographic label order): every index strictly before the selected one has
distance strictly above the minimum. -/
theorem matchFace_tie_break_first_index (d : Vec → Vec → ℚ) (encodings : List Vec)
    (names : List String) (query : Vec) (threshold : ℚ)
    (h : encodings ≠ [])
    (hth : listMin (encodings.map fun e => d e query) < threshold) :
    matchFace d encodings names query threshold
      = names.getD (argminIdx (encodings.map fun e => d e query)) "Unknown" ∧
    (encodings.map fun e => d e query).getD
        (argminIdx (encodings.map fun e => d e query)) 0
      = listMin (encodings.map fun e => d e query) ∧
    (∀ j < argminIdx (encodings.map fun e => d e query),
      listMin (encodings.map fun e => d e query)
        < (encodings.map fun e => d e query).getD j 0) := by
  have hds : encodings.map (fun e => d e query) ≠ [] := map_dist_ne_nil h
  have hlen : 0 < encodings.length := List.length_pos.mpr h
  refine ⟨?_, getD_argminIdx hds, fun j hj => argminIdx_first j hj⟩
  simp only [matchFace, if_pos hlen]
  rw [if_pos]
  rw [getD_argminIdx hds]
  exact hth

/-- C7 witness: on the tie gallery [[0], [0]] with labels ["B", "A"] and
threshold 1, the theorem yields the first-listed label "B" at index 0. -/
theorem matchFace_tie_break_first_index_witness :
    matchFace absDist [[(0:ℚ)], [(0:ℚ)]] ["B", "A"] [0] 1 = "B" := by
  have hmap : [[(0:ℚ)], [(0:ℚ)]].map (fun e => absDist e [0]) = [0, 0] := by
    norm_num [absDist]
  have h := (matchFace_tie_break_first_index absDist [[(0:ℚ)], [(0:ℚ)]]
    ["B", "A"] [0] 1 (by simp) (by rw [hmap]; norm_num [listMin])).1
  rw [hmap] at h
  simpa [argminIdx, listMin] using h

/-! ### Filename parsing lemmas -/

lemma splitU_ne_nil (l : List Char) : splitU l ≠ [] := by
  cases l with
  | nil => simp [splitU]
  | cons c cs =>
    simp only [splitU]
    split
    · simp
    · split <;> simp

lemma splitU_append_sep (xs ys : List Char) :
    splitU (xs ++ '_' :: ys) = splitU xs ++ splitU ys := by
  induction xs with
  | nil =>
    simp only [List.nil_append, splitU]
    rcases h : splitU ys with _ | ⟨h', t⟩
    · exact absurd h (splitU_ne_nil ys)
    · simp
  | cons c cs ih =>
    simp only [List.cons_append, splitU, List.append_eq]
    rw [ih]
    rcases h : splitU cs with _ | ⟨h', t⟩
    · exact absurd h (splitU_ne_nil cs)
    · rcases hy : splitU ys with _ | ⟨hy', ty⟩
      · exact absurd hy (splitU_ne_nil ys)
      · by_cases hc : c = '_' <;> simp [hc]

lemma splitU_no_sep {n : List Char} (h : '_' ∉ n) : splitU n = [n] := by
  induction n with
  | nil => simp [splitU]
  | cons c cs ih =>
    have hc : c ≠ '_' := fun hc => h (hc ▸ List.mem_cons_self c cs)
    have hcs : '_' ∉ cs := fun hm => h (List.mem_cons_of_mem c hm)
    simp [splitU, ih hcs, hc]

lemma joinU_cons_cons (c : Char) (h : List Char) (t : List (List Char)) :
    joinU ((c :: h) :: t) = c :: joinU (h :: t) := by
  cases t with
  | nil => simp [joinU]
  | cons y ys => simp [joinU]

lemma joinU_splitU (l : List Char) : joinU (splitU l) = l := by
  induction l with
  | nil => simp [splitU, joinU]
  | cons c cs ih =>
    simp only [splitU]
    rcases h : splitU cs with _ | ⟨h', t⟩
    · exact absurd h (splitU_ne_nil cs)
    · rw [h] at ih
      by_cases hc : c = '_'
      · subst hc
        simpa [joinU] using ih
      · simp only [if_neg hc, joinU_cons_cons, ih]

/-! ### C5: filename-to-label parsing -/

/-- C5 (counterexample to the claim as stated): the accepted filename
"Alice.jpg" (no underscore-number suffix) is parsed to the EMPTY label, not to
"Alice" as the claim says. -/
theorem parseLabel_no_underscore_cex :
    isAccepted "Alice.jpg".toList = true ∧
    parseLabel "Alice.jpg".toList = [] ∧
    "Alice.jpg".toList ≠ [] ∧
    ([] : List Char) ≠ "Alice".toList := by
  refine ⟨by decide, ?_, by decide, by decide⟩
  decide

/-- C5 (amended): the label is everything before the LAST underscore of the
filename (the underscore-joined list of all `"_"`-separated segments but the
last).  When the part after the last underscore contains no further
underscore: `parseLabel (s ++ "_" ++ n) = s` for every prefix `s`; and a
filename with no underscore at all parses to the EMPTY label, not to itself. -/
theorem parseLabel_strips_after_last_underscore (s n : List Char)
    (h : '_' ∉ n) :
    parseLabel (s ++ '_' :: n) = s ∧ parseLabel n = [] := by
  constructor
  · rw [parseLabel, splitU_append_sep, splitU_no_sep h,
      List.dropLast_concat, joinU_splitU]
  · rw [parseLabel, splitU_no_sep h]
    simp [joinU]

/-- C5 witness: "Alice_2.jpg" parses to "Alice" (the theorem applied with
`s = "Alice"` and `n = "2.jpg"`), and "Alice.jpg" parses to the empty label. -/
theorem parseLabel_strips_after_last_underscore_witness :
    parseLabel "Alice_2.jpg".toList = "Alice".toList ∧
    parseLabel "Alice.jpg".toList = [] := by
  have h := parseLabel_strips_after_last_underscore "Alice".toList
    "2.jpg".toList (by decide)
  exact ⟨h.1, (parseLabel_strips_after_last_underscore "Alice".toList
    "Alice.jpg".toList (by decide)).2⟩

/-! ### Averaging lemmas -/

lemma vecAdd_comm (v w : Vec) : vecAdd v w = vecAdd w v := by
  unfold vecAdd
  induction v generalizing w with
  | nil => cases w <;> simp
  | cons a v ih => cases w <;> simp [add_comm, ih]

lemma vecAdd_assoc (u v w : Vec) :
    vecAdd (vecAdd u v) w = vecAdd u (vecAdd v w) := by
  unfold vecAdd
  induction u generalizing v w with
  | nil => simp
  | cons a u ih =>
    cases v with
    | nil => simp
    | cons b v =>
      cases w with
      | nil => simp
      | cons c w => simp [add_assoc, ih]

lemma vecAdd_right_comm (a x y : Vec) :
    vecAdd (vecAdd a x) y = vecAdd (vecAdd a y) x := by
  rw [vecAdd_assoc, vecAdd_assoc, vecAdd_comm x y]

lemma foldl_vecAdd_perm {l₁ l₂ : List Vec} (h : l₁.Perm l₂) :
    ∀ a : Vec, l₁.foldl vecAdd a = l₂.foldl vecAdd a := by
  induction h with
  | nil => intro a; rfl
  | cons x _ ih => intro a; simp only [List.foldl_cons]; exact ih _
  | swap x y l => intro a; simp only [List.foldl_cons, vecAdd_right_comm]
  | trans _ _ ih₁ ih₂ => intro a; exact (ih₁ a).trans (ih₂ a)

lemma vecSum_perm {l₁ l₂ : List Vec} (h : l₁.Perm l₂) : vecSum l₁ = vecSum l₂ := by
  induction h with
  | nil => rfl
  | cons x h' _ => exact foldl_vecAdd_perm h' x
  | swap x y l => simp only [vecSum, List.foldl_cons, vecAdd_comm x y]
  | trans _ _ ih₁ ih₂ => exact ih₁.trans ih₂

lemma vecMean_perm {l₁ l₂ : List Vec} (h : l₁.Perm l₂) : vecMean l₁ = vecMean l₂ := by
  unfold vecMean
  rw [vecSum_perm h, h.length_eq]

/-! ### C6: order-independence of the stored average -/

/-- C6 (confirmed): the stored averaged vector for a label is the same no
matter in which order the dataset build enumerates the image files: for any
two enumerations of the same files (permutations of each other), the
element-wise mean of the label's collected vectors is identical. -/
theorem build_average_order_independent (label : String)
    (files₁ files₂ : List (String × Vec)) (h : files₁.Perm files₂) :
    vecMean (collectFor label files₁) = vecMean (collectFor label files₂) := by
  unfold collectFor
  exact vecMean_perm ((h.filter _).map Prod.snd)

/-- C6 witness: the two enumeration orders of label "A"'s images [1,3] and
[3,5] give the identical averaged vector. -/
theorem build_average_order_independent_witness :
    vecMean (collectFor "A" [("A", [1, 3]), ("A", [3, 5])])
      = vecMean (collectFor "A" [("A", [3, 5]), ("A", [1, 3])]) ∧
    vecMean (collectFor "A" [("A", [1, 3]), ("A", [3, 5])]) = [2, 4] := by
  constructor
  · exact build_average_order_independent "A" _ _
      (List.Perm.swap ("A", [3, 5]) ("A", [1, 3]) [])
  · norm_num [vecMean, vecSum, collectFor, vecAdd]

/-! ### Ledger lemmas -/

lemma shouldRecord_present (st : AttState) {name : String} {last : Int}
    (now : Int) (hl : List.lookup name st.present = some last) :
    shouldRecord true st name now = decide (30 < elapsedSeconds now last) := by
  simp [shouldRecord, hl]

lemma update_recorded {st : AttState} {name : String} {now : Int}
    (hs : shouldRecord true st name now = true) :
    update_attendance_record true st name now
      = ⟨setKey st.present name now, st.saveCount + 1⟩ := by
  simp [update_attendance_record, hs]

lemma update_ignored {st : AttState} {name : String} {now : Int}
    (hs : shouldRecord true st name now = false) :
    update_attendance_record true st name now = st := by
  simp [update_attendance_record, hs]

lemma update_ignored_iff (st : AttState) {name : String} {last now : Int}
    (hl : List.lookup name st.present = some last) :
    update_attendance_record true st name now = st ↔
      elapsedSeconds now last ≤ 30 := by
  constructor
  · intro heq
    by_contra hgt
    push_neg at hgt
    have hs : shouldRecord true st name now = true := by
      rw [shouldRecord_present st now hl]
      simpa using hgt
    rw [update_recorded hs] at heq
    have hcount := congrArg AttState.saveCount heq
    simp at hcount
  · intro hle
    apply update_ignored
    rw [shouldRecord_present st now hl]
    simpa using not_lt.mpr hle

lemma elapsedSeconds_small {now last : Int} (h0 : 0 ≤ now - last)
    (h30 : now - last ≤ 30) : elapsedSeconds now last = now - last := by
  unfold elapsedSeconds
  exact Int.emod_eq_of_lt h0 (by omega)

/-! ### C2: dedup idempotence within the 30-second window -/

/-- C2 (confirmed): with duplicate prevention on, recording "Bob" at `t0`
stores exactly one entry for Bob with timestamp `t0` and issues one
persistence write; a repeat at `t0+5` changes nothing at all; a repeat at
`t0+31` leaves the present set at exactly one Bob entry but updates the
timestamp to `t0+31` (and persists); and in general any repeat sighting of an
already-present name within 30 seconds of its stored timestamp leaves the
whole state unchanged — no state change and no persistence write. -/
theorem recordSighting_dedup_idempotent (t0 : Int) :
    (update_attendance_record true initialState "Bob" t0).present = [("Bob", t0)] ∧
    (update_attendance_record true initialState "Bob" t0).saveCount = 1 ∧
    update_attendance_record true (update_attendance_record true initialState "Bob" t0)
        "Bob" (t0 + 5)
      = update_attendance_record true initialState "Bob" t0 ∧
    (update_attendance_record true (update_attendance_record true
        (update_attendance_record true initialState "Bob" t0) "Bob" (t0 + 5))
        "Bob" (t0 + 31)).present = [("Bob", t0 + 31)] ∧
    (update_attendance_record true (update_attendance_record true
        (update_attendance_record true initialState "Bob" t0) "Bob" (t0 + 5))
        "Bob" (t0 + 31)).saveCount = 2 ∧
    (∀ st name last now, List.lookup name st.present = some last →
      0 ≤ now - last → now - last ≤ 30 →
      update_attendance_record true st name now = st) := by
  have hgen : ∀ st name last now, List.lookup name st.present = some last →
      0 ≤ now - last → now - last ≤ 30 →
      update_attendance_record true st name now = st := by
    intro st name last now hl h0 h30
    rw [update_ignored_iff st hl, elapsedSeconds_small h0 h30]
    exact h30
  have h1 : update_attendance_record true initialState "Bob" t0
      = ⟨[("Bob", t0)], 1⟩ := by
    have hs : shouldRecord true initialState "Bob" t0 = true := by
      simp [shouldRecord, initialState]
    rw [update_recorded hs]
    simp [initialState, setKey]
  have hl : List.lookup "Bob" ([("Bob", t0)] : List (String × Int)) = some t0 := by
    simp [List.lookup]
  have h2 : update_attendance_record true ⟨[("Bob", t0)], 1⟩ "Bob" (t0 + 5)
      = ⟨[("Bob", t0)], 1⟩ := by
    apply hgen _ _ t0 _ hl (by omega) (by omega)
  have h3 : update_attendance_record true ⟨[("Bob", t0)], 1⟩ "Bob" (t0 + 31)
      = ⟨[("Bob", t0 + 31)], 2⟩ := by
    have hs : shouldRecord true ⟨[("Bob", t0)], 1⟩ "Bob" (t0 + 31) = true := by
      rw [shouldRecord_present ⟨[("Bob", t0)], 1⟩ (t0 + 31) hl]
      have he : elapsedSeconds (t0 + 31) t0 = 31 := by
        unfold elapsedSeconds
        have h31 : t0 + 31 - t0 = 31 := by ring
        rw [h31]
        decide
      simp [he]
    rw [update_recorded hs]
    simp [setKey]
  rw [h1, h2, h3]
  exact ⟨rfl, rfl, rfl, rfl, rfl, hgen⟩

/-- C2 witness: the theorem at `t0 = 0` — the repeat at 5 seconds changes
nothing, the repeat at 31 seconds keeps a single Bob entry with the updated
timestamp. -/
theorem recordSighting_dedup_idempotent_witness :
    update_attendance_record true (update_attendance_record true initialState "Bob" 0)
        "Bob" 5
      = update_attendance_record true initialState "Bob" 0 ∧
    (update_attendance_record true (update_attendance_record true
        (update_attendance_record true initialState "Bob" 0) "Bob" 5)
        "Bob" 31).present = [("Bob", 31)] := by
  have h := recordSighting_dedup_idempotent 0
  norm_num at h
  exact ⟨h.2.2.1, h.2.2.2.1⟩

/-! ### C10: the dedup window compares only the sub-day seconds component -/

/-- C10 (confirmed): with duplicate prevention on and the person already
present with stored timestamp `last`, a repeat sighting at `now` is ignored
(state unchanged, timestamp not updated) if and only if the sub-day seconds
component of the elapsed time, `(now - last) % 86400`, is at most 30; in
particular a sighting exactly one day plus 10 seconds later is still ignored
even though the true elapsed time far exceeds 30 seconds. -/
theorem dedup_compares_sub_day_seconds :
    (∀ st name last now, List.lookup name st.present = some last →
      (update_attendance_record true st name now = st ↔
        elapsedSeconds now last ≤ 30)) ∧
    (∀ t0 : Int,
      update_attendance_record true ⟨[("Bob", t0)], 1⟩ "Bob" (t0 + 86400 + 10)
        = ⟨[("Bob", t0)], 1⟩) := by
  constructor
  · intro st name last now hl
    exact update_ignored_iff st hl
  · intro t0
    have he : elapsedSeconds (t0 + 86400 + 10) t0 = 10 := by
      unfold elapsedSeconds
      have hd : t0 + 86400 + 10 - t0 = 86410 := by ring
      rw [hd]
      decide
    have hl : List.lookup "Bob" ([("Bob", t0)] : List (String × Int)) = some t0 := by
      simp [List.lookup]
    rw [update_ignored_iff ⟨[("Bob", t0)], 1⟩ hl, he]
    decide

/-- C10 witness: Bob stored at time 0, sighted again at 86410 (one day plus
10 seconds later): the state is unchanged. -/
theorem dedup_compares_sub_day_seconds_witness :
    update_attendance_record true ⟨[("Bob", 0)], 1⟩ "Bob" 86410
      = ⟨[("Bob", 0)], 1⟩ := by
  have h := dedup_compares_sub_day_seconds.2 0
  norm_num at h
  exact h

/-! ### C4: a person appears in `present` at most once -/

lemma setKey_keys_nodup {l : List (String × Int)} {k : String} {v : Int}
    (h : (l.map Prod.fst).Nodup) : ((setKey l k v).map Prod.fst).Nodup := by
  unfold setKey
  split
  · have hkeys : ((l.map fun p => if p.1 = k then (k, v) else p).map Prod.fst)
        = l.map Prod.fst := by
      rw [List.map_map]
      apply List.map_congr_left
      intro p _
      by_cases hp : p.1 = k
      · simp [hp]
      · simp [hp]
    rw [hkeys]
    exact h
  · next hnone =>
    have hk : k ∉ l.map Prod.fst := by
      intro hmem
      rcases List.mem_map.mp hmem with ⟨p, hp, hpk⟩
      exact hnone (List.any_eq_true.mpr ⟨p, hp, by simp [hpk]⟩)
    have hd : (l.map Prod.fst).Disjoint [k] := by
      intro a ha hb
      simp only [List.mem_singleton] at hb
      subst hb
      exact hk ha
    simp only [List.map_append, List.map_cons, List.map_nil]
    exact List.Nodup.append h (List.nodup_singleton k) hd

lemma update_keys_nodup {dupPrev : Bool} {st : AttState} {name : String} {now : Int}
    (h : (st.present.map Prod.fst).Nodup) :
    (((update_attendance_record dupPrev st name now).present).map Prod.fst).Nodup := by
  unfold update_attendance_record
  split
  · exact setKey_keys_nodup h
  · exact h

lemma runEvents_keys_nodup (dupPrev : Bool) (events : List (String × Int)) :
    (((runEvents dupPrev events).present).map Prod.fst).Nodup := by
  suffices hgen : ∀ st : AttState, (st.present.map Prod.fst).Nodup →
      (((events.foldl (fun st e => update_attendance_record dupPrev st e.1 e.2)
        st).present).map Prod.fst).Nodup by
    exact hgen initialState (by simp [initialState])
  induction events with
  | nil => intro st h; exact h
  | cons e tl ih =>
    intro st h
    exact ih _ (update_keys_nodup h)

lemma save_attendance_present {date : String} {present all : List String}
    {r : AttendanceRecord} (h : save_attendance date present all = some r) :
    r.present_students = present := by
  unfold save_attendance at h
  split at h
  · exact absurd h (by simp)
  · next heq =>
    rw [Option.some_inj] at h
    rw [← h]

/-- C4 (confirmed): however many identity events were observed that day, each
person label appears in the persisted record's `present_students` at most
once: the present set is the key list of the `present_students` dict, whose
keys stay pairwise distinct through every `update_attendance_record`. -/
theorem present_at_most_once (dupPrev : Bool) (events : List (String × Int))
    (date : String) (all : List String) (name : String) (r : AttendanceRecord)
    (h : save_attendance date ((runEvents dupPrev events).present.map Prod.fst) all
      = some r) :
    r.present_students.count name ≤ 1 := by
  rw [save_attendance_present h]
  exact List.nodup_iff_count_le_one.mp (runEvents_keys_nodup dupPrev events) name

/-- C4 witness: Bob sighted twice (at 0 and at 40 seconds, both recorded since
40 > 30); the persisted record still lists Bob exactly once. -/
theorem present_at_most_once_witness :
    ({ date := "2024-01-01", present_students := ["Bob"], all_students := ["Bob"],
       absent_students := [], total_students := 1, present_count := 1,
       attendance_percentage := 100 } : AttendanceRecord).present_students.count "Bob"
      ≤ 1 := by
  apply present_at_most_once true [("Bob", 0), ("Bob", 40)] "2024-01-01" ["Bob"] "Bob"
  have hrun : (runEvents true [("Bob", 0), ("Bob", 40)]).present.map Prod.fst
      = ["Bob"] := by
    have h1 : update_attendance_record true initialState "Bob" 0
        = ⟨[("Bob", 0)], 1⟩ := by
      have hs : shouldRecord true initialState "Bob" 0 = true := by
        simp [shouldRecord, initialState]
      rw [update_recorded hs]
      simp [initialState, setKey]
    have hl0 : List.lookup "Bob" ([("Bob", 0)] : List (String × Int)) = some 0 := by
      simp [List.lookup]
    have hs2 : shouldRecord true ⟨[("Bob", 0)], 1⟩ "Bob" 40 = true := by
      rw [shouldRecord_present ⟨[("Bob", 0)], 1⟩ 40 hl0]
      decide
    have h2 : update_attendance_record true ⟨[("Bob", 0)], 1⟩ "Bob" 40
        = ⟨[("Bob", 40)], 2⟩ := by
      rw [update_recorded hs2]
      simp [setKey]
    simp [runEvents, h1, h2]
  rw [hrun]
  norm_num [save_attendance, pyDiv, pySetDiff, pyDedup]

/-! ### Daily-record lemmas -/

lemma mem_pyDedup {x : String} {l : List String} : x ∈ pyDedup l ↔ x ∈ l := by
  induction l with
  | nil => simp [pyDedup]
  | cons a tl ih =>
    simp only [pyDedup, List.mem_cons, List.mem_filter, decide_eq_true_eq]
    constructor
    · rintro (h | ⟨h, _⟩)
      · exact Or.inl h
      · exact Or.inr (ih.mp h)
    · rintro (h | h)
      · exact Or.inl h
      · by_cases hx : x = a
        · exact Or.inl hx
        · exact Or.inr ⟨ih.mpr h, hx⟩

lemma pyDedup_nodup (l : List String) : (pyDedup l).Nodup := by
  induction l with
  | nil => simp [pyDedup]
  | cons a tl ih =>
    simp only [pyDedup, List.nodup_cons]
    constructor
    · intro hmem
      have hcontra := (List.mem_filter.mp hmem).2
      simp at hcontra
    · exact ih.filter _

lemma mem_pySetDiff {x : String} {all present : List String} :
    x ∈ pySetDiff all present ↔ x ∈ all ∧ x ∉ present := by
  simp [pySetDiff, List.mem_filter, mem_pyDedup]

lemma pySetDiff_nodup (all present : List String) : (pySetDiff all present).Nodup :=
  (pyDedup_nodup all).filter _

/-! ### C3: contents of the persisted daily record -/

/-- C3 (counterexample to the claim as stated): for
`all_students = ["A","B","C"]` and `present_students = ["A"]` the stored
percentage is the full-precision quotient 100/3 = 33.333…, NOT the 1-decimal
value 33.3 the claim asserts (the code performs no rounding). -/
theorem save_attendance_percentage_cex :
    save_attendance "2024-01-01" ["A"] ["A", "B", "C"]
      = some { date := "2024-01-01", present_students := ["A"],
               all_students := ["A", "B", "C"], absent_students := ["B", "C"],
               total_students := 3, present_count := 1,
               attendance_percentage := 100/3 } ∧
    (100 : ℚ)/3 ≠ 333/10 := by
  constructor
  · have habs : pySetDiff ["A", "B", "C"] ["A"] = ["B", "C"] := by decide
    norm_num [save_attendance, pyDiv, habs]
  · intro h
    rw [div_eq_div_iff (by norm_num) (by norm_num)] at h
    norm_num at h

/-- C3 (amended): for a nonempty `all_students` list the persisted record has
`absent_students` equal (as a duplicate-free list) to the set difference
`all_students` minus `present_students`, `total_students` the length of
`all_students`, `present_count` the length of `present_students`, and
`attendance_percentage` the exact full-precision value
`present/total * 100` — no rounding to 1 decimal place takes place, so the
scenario of the claim stores 100/3 = 33.333…, not 33.3. -/
theorem save_attendance_record_fields (date : String)
    (present all : List String) (h : all ≠ []) :
    ∃ r, save_attendance date present all = some r ∧
      r.present_students = present ∧
      r.all_students = all ∧
      (∀ x, x ∈ r.absent_students ↔ x ∈ all ∧ x ∉ present) ∧
      r.absent_students.Nodup ∧
      r.total_students = all.length ∧
      r.present_count = present.length ∧
      r.attendance_percentage = (present.length : ℚ) / (all.length : ℚ) * 100 := by
  have hne : all.isEmpty ≠ true := by simpa [List.isEmpty_iff] using h
  have hcast : (all.length : ℚ) ≠ 0 := by simpa using h
  refine ⟨{ date := date, present_students := present, all_students := all,
            absent_students := pySetDiff all present,
            total_students := all.length, present_count := present.length,
            attendance_percentage := (present.length : ℚ) / (all.length : ℚ) * 100 },
          ?_, rfl, rfl, fun x => mem_pySetDiff, pySetDiff_nodup all present,
          rfl, rfl, rfl⟩
  simp only [save_attendance, pyDiv]
  rw [if_neg hne, if_neg hcast]
  rfl

/-- C3 witness: the claim's own scenario `all = ["A","B","C"]`,
`present = ["A"]` — absent is `["B","C"]` (as sets), total 3, present count 1,
percentage exactly 100/3. -/
theorem save_attendance_record_fields_witness :
    ∃ r, save_attendance "2024-01-02" ["A"] ["A", "B", "C"] = some r ∧
      ("B" ∈ r.absent_students ∧ "C" ∈ r.absent_students ∧
        "A" ∉ r.absent_students) ∧
      r.total_students = 3 ∧
      r.present_count = 1 ∧
      r.attendance_percentage = 100/3 := by
  obtain ⟨r, hsave, _, _, hmem, _, htot, hcount, hperc⟩ :=
    save_attendance_record_fields "2024-01-02" ["A"] ["A", "B", "C"] (by simp)
  refine ⟨r, hsave, ⟨?_, ?_, ?_⟩, by simpa using htot, by simpa using hcount, ?_⟩
  · exact (hmem "B").mpr (by simp)
  · exact (hmem "C").mpr (by simp)
  · intro hmemA
    exact ((hmem "A").mp hmemA).2 (by simp)
  · rw [hperc]
    norm_num

/-! ### C9: empty `all_students` — guarded division -/

/-- C9 (confirmed): `save_attendance` never raises a division-by-zero fault —
for every input the save succeeds (the `Option` is `some`, i.e. the error
branch of the division is unreachable) — and with an empty `all_students`
list the stored percentage is 0 (with 0 total students and an empty absent
list). -/
theorem save_attendance_empty_guard (date : String) (present all : List String) :
    (save_attendance date present all).isSome = true ∧
    (all = [] → save_attendance date present all
      = some { date := date, present_students := present, all_students := [],
               absent_students := [], total_students := 0,
               present_count := present.length, attendance_percentage := 0 }) := by
  constructor
  · by_cases hall : all.isEmpty
    · simp [save_attendance, hall]
    · have h : all ≠ [] := by simpa [List.isEmpty_iff] using hall
      have hcast : (all.length : ℚ) ≠ 0 := by simpa using h
      simp [save_attendance, hall, pyDiv, hcast]
  · intro hall
    subst hall
    simp [save_attendance, pySetDiff, pyDedup]

/-- C9 witness: saving with `all_students = []` and one present student —
the save succeeds and the stored percentage is 0. -/
theorem save_attendance_empty_guard_witness :
    (save_attendance "2024-01-03" ["A"] []).isSome = true ∧
    save_attendance "2024-01-03" ["A"] []
      = some { date := "2024-01-03", present_students := ["A"], all_students := [],
               absent_students := [], total_students := 0, present_count := 1,
               attendance_percentage := 0 } := by
  have h := save_attendance_empty_guard "2024-01-03" ["A"] []
  exact ⟨h.1, h.2 rfl⟩

/-! ### C8: saves are not atomic -/

/-- C8 (counterexample to the claim as stated): saving new bytes [2, 3] over
old content [1] is NOT atomic: the trace `open(..., 'w'/'wb')` + `dump`
truncates the destination in place, so the empty intermediate file — neither
the old nor the new content — is observable by a load during/after an
interrupted save. -/
theorem save_not_atomic_cex :
    ¬ atomicSave [1] (saveFileOps [2, 3]) ∧
    runOps [1] (saveFileOps [2, 3]) = [2, 3] := by
  constructor
  · decide
  · decide

/-- C8 (amended): both save paths write the destination file in place —
truncate, then write the serialized bytes, with no temporary file and no
rename — so whenever the old content and the new bytes are both nonempty the
truncated (empty) intermediate state is observable and the save is NOT
atomic; a completed save does leave exactly the new bytes. -/
theorem save_truncate_then_write (old bytes : List ℕ)
    (hold : old ≠ []) (hbytes : bytes ≠ []) :
    [] ∈ observableStates old (saveFileOps bytes) ∧
    ¬ atomicSave old (saveFileOps bytes) ∧
    runOps old (saveFileOps bytes) = bytes := by
  have hobs : observableStates old (saveFileOps bytes) = [old, [], bytes] := by
    simp [observableStates, saveFileOps, runOps, applyOp, List.range_succ]
  have hrun : runOps old (saveFileOps bytes) = bytes := by
    simp [runOps, saveFileOps, applyOp]
  refine ⟨by rw [hobs]; simp, ?_, hrun⟩
  intro hatomic
  have hmem : ([] : List ℕ) ∈ observableStates old (saveFileOps bytes) := by
    rw [hobs]; simp
  rcases hatomic [] hmem with hcase | hcase
  · exact hold hcase.symm
  · rw [hrun] at hcase
    exact hbytes hcase.symm

/-- C8 witness: old gallery bytes [7], new bytes [8, 9]: the empty truncated
state is observable and the save is not atomic, though the completed save
holds exactly [8, 9]. -/
theorem save_truncate_then_write_witness :
    [] ∈ observableStates [7] (saveFileOps [8, 9]) ∧
    ¬ atomicSave [7] (saveFileOps [8, 9]) ∧
    runOps [7] (saveFileOps [8, 9]) = [8, 9] :=
  save_truncate_then_write [7] [8, 9] (by decide) (by decide)

end AutoAttendance
